import Mathlib

/-!
Verification of the Pong simulation core (fy_math.rs, physics.rs, main.rs).

The physics engine (`physics.rs`) is embedded over exact rationals: every
`f32` of the source is modelled as a `ℚ`.  The gameplay resolver of
`main.rs` involves trigonometry (`sin`/`cos` of sampled angles), so its
state is embedded over `ℝ`.  Entities are modelled by their numeric id
(`ℕ`); the ECS world seen by `PhysicsSystem::run` — the join of
`PhysicsComponent`, `TransformComponent` and `Entities` — is modelled as a
list of records, in the (frame-stable) iteration order of the store.
-/

set_option maxHeartbeats 1000000

namespace Pong

/-! ## fy_math.rs -/

/-- `Vec2` from fy_math.rs; `f32` fields are modelled as `ℚ`. -/
structure Vec2 where
  x : ℚ
  y : ℚ

deriving instance DecidableEq for Vec2

/-- `Vec2::new`. -/
def Vec2.new (x y : ℚ) : Vec2 := ⟨x, y⟩

/-- `Vec2::dot`. -/
def Vec2.dot (self other : Vec2) : ℚ := self.x * other.x + self.y * other.y

/-- `impl Sub<Vec2> for Vec2`. -/
def Vec2.sub (self rhs : Vec2) : Vec2 := ⟨self.x - rhs.x, self.y - rhs.y⟩

/-- `impl Mul<f32> for Vec2`. -/
def Vec2.mulScalar (self : Vec2) (rhs : ℚ) : Vec2 := ⟨self.x * rhs, self.y * rhs⟩

/-- `impl Mul<Vec2> for f32` (delegates to `Vec2 * f32`). -/
def scalarMulVec (self : ℚ) (rhs : Vec2) : Vec2 := rhs.mulScalar self

/-- `TransformComponent` from fy_math.rs. -/
structure TransformComponent where
  position : Vec2

deriving instance DecidableEq for TransformComponent

/-! ## render.rs (only the `Vertex` data type is needed by the physics) -/

/-- `Vertex` from render.rs. -/
structure Vertex where
  position : Vec2

deriving instance DecidableEq for Vertex

/-! ## physics.rs -/

/-- `AABB` from physics.rs. -/
structure AABB where
  top_right : Vec2
  bot_left : Vec2

deriving instance DecidableEq for AABB

/-- `Collision` from physics.rs; the `other: Entity` is an entity id. -/
structure Collision where
  other : ℕ
  mtv : Vec2

deriving instance DecidableEq for Collision

/-- `PhysicsComponent` from physics.rs. -/
structure PhysicsComponent where
  velocity : Vec2
  bbox : AABB
  collided_objects : List Collision

deriving instance DecidableEq for PhysicsComponent

/-- `AABB::new`. -/
def AABB.new (top_right bot_left : Vec2) : AABB := ⟨top_right, bot_left⟩

/-- The body of the fold inside `AABB::from_vertices`: the accumulator is
the pair `(curr_min, curr_max)`. -/
def foldStep (acc : Vec2 × Vec2) (vtx : Vertex) : Vec2 × Vec2 :=
  let curr_min := acc.1
  let curr_max := acc.2
  let new_max_x := if vtx.position.x > curr_max.x then vtx.position.x else curr_max.x
  let new_max_y := if vtx.position.y > curr_max.y then vtx.position.y else curr_max.y
  let new_min_x := if vtx.position.x < curr_min.x then vtx.position.x else curr_min.x
  let new_min_y := if vtx.position.y < curr_min.y then vtx.position.y else curr_min.y
  (Vec2.new new_min_x new_min_y, Vec2.new new_max_x new_max_y)

/-- `AABB::from_vertices`.  The source `assert!(vertices.len() >= 2, ...)`
aborts construction for fewer than two vertices; that fatal abort is
modelled as `none`.  Otherwise the box is the min/max fold over all
vertices, seeded with the first vertex. -/
def AABB.from_vertices : List Vertex → Option AABB
  | [] => none
  | [_] => none
  | first :: rest =>
    let fst := first.position
    let mm := (first :: rest).foldl foldStep (fst, fst)
    some ⟨mm.2, mm.1⟩

/-- `AABB::adjust_position`. -/
def AABB.adjust_position (self : AABB) (position : Vec2) : AABB :=
  ⟨Vec2.new (self.top_right.x + position.x) (self.top_right.y + position.y),
   Vec2.new (self.bot_left.x + position.x) (self.bot_left.y + position.y)⟩

/-- `AABB::check_collision`.  The running minimum `overlap` starts at
`std::f32::MAX`, modelled as `⊤ : WithTop ℚ`; `axis` starts at `(1,0)` and
is replaced by `(0,1)` only when the Y overlap is strictly smaller. -/
def AABB.check_collision (self other : AABB) : Option Vec2 :=
  let overlap : WithTop ℚ := ⊤
  let axis : Vec2 := Vec2.new 1 0
  if self.top_right.x < other.bot_left.x ∨ other.top_right.x < self.bot_left.x then
    none
  else
    let new_overlap : ℚ :=
      min self.top_right.x other.top_right.x - max self.bot_left.x other.bot_left.x
    let overlap : WithTop ℚ :=
      if (new_overlap : WithTop ℚ) < overlap then (new_overlap : WithTop ℚ) else overlap
    if self.top_right.y < other.bot_left.y ∨ other.top_right.y < self.bot_left.y then
      none
    else
      let new_overlap_y : ℚ :=
        min self.top_right.y other.top_right.y - max self.bot_left.y other.bot_left.y
      if (new_overlap_y : WithTop ℚ) < overlap then some (Vec2.new 0 1) else some axis

/-- X-projection overlap length of two (world-space) boxes. -/
def xOverlap (a b : AABB) : ℚ :=
  min a.top_right.x b.top_right.x - max a.bot_left.x b.bot_left.x

/-- Y-projection overlap length of two (world-space) boxes. -/
def yOverlap (a b : AABB) : ℚ :=
  min a.top_right.y b.top_right.y - max a.bot_left.y b.bot_left.y

/-- Disjointness of the X projections, exactly the early-out test of
`check_collision`. -/
def disjointX (a b : AABB) : Prop :=
  a.top_right.x < b.bot_left.x ∨ b.top_right.x < a.bot_left.x

/-- Disjointness of the Y projections. -/
def disjointY (a b : AABB) : Prop :=
  a.top_right.y < b.bot_left.y ∨ b.top_right.y < a.bot_left.y

instance (a b : AABB) : Decidable (disjointX a b) := by unfold disjointX; infer_instance

instance (a b : AABB) : Decidable (disjointY a b) := by unfold disjointY; infer_instance

/-! ## The ECS world joined by `PhysicsSystem::run` -/

/-- One row of the `(&physics_storage, &transform_storage, &entities)` join:
an entity id together with its `PhysicsComponent` and `TransformComponent`. -/
structure EntityRec where
  eid : ℕ
  phys : PhysicsComponent
  transform : TransformComponent

deriving instance DecidableEq for EntityRec

/-- The id column of the world. -/
def ids (w : List EntityRec) : List ℕ := w.map EntityRec.eid

/-- World-space box of an entity: `collider.bbox.adjust_position(transform.position)`. -/
def worldBox (r : EntityRec) : AABB :=
  r.phys.bbox.adjust_position r.transform.position

/-- `itertools` `combinations(2)` over the join, in iteration order:
every element paired with each later element. -/
def pairsOf : List EntityRec → List (EntityRec × EntityRec)
  | [] => []
  | x :: xs => (xs.map fun y => (x, y)) ++ pairsOf xs

/-- Axis orientation step of `PhysicsSystem::run` (physics.rs lines
154-159): flip the axis when its dot product with
`transform2.position - transform1.position` is non-negative. -/
def orientAxis (axis : Vec2) (t1 t2 : TransformComponent) : Vec2 :=
  let t2_to_t1 := t2.position.sub t1.position
  if axis.dot t2_to_t1 ≥ 0 then scalarMulVec (-1) axis else axis

/-- The entry pushed onto `collision_map` for one combination, if any. -/
def collisionEntry (c : EntityRec × EntityRec) : Option (ℕ × ℕ × Vec2) :=
  match (worldBox c.1).check_collision (worldBox c.2) with
  | none => none
  | some axis => some (c.1.eid, c.2.eid, orientAxis axis c.1.transform c.2.transform)

/-- The `collision_map` built by the first loop of `PhysicsSystem::run`. -/
def collisionMap (w : List EntityRec) : List (ℕ × ℕ × Vec2) :=
  (pairsOf w).filterMap collisionEntry

/-- The second loop: `phys_obj.collided_objects.clear()` for every body. -/
def clearRecords (w : List EntityRec) : List EntityRec :=
  w.map fun r => { r with phys := { r.phys with collided_objects := [] } }

/-- `physics_storage.get_mut(e).collided_objects.push(c)`. -/
def pushRecord (w : List EntityRec) (e : ℕ) (c : Collision) : List EntityRec :=
  w.map fun r =>
    if r.eid = e then
      { r with phys := { r.phys with collided_objects := r.phys.collided_objects ++ [c] } }
    else r

/-- One iteration of the third loop of `PhysicsSystem::run`: both
participants receive a record carrying the same `mtv`. -/
def applyEntry (w : List EntityRec) (t : ℕ × ℕ × Vec2) : List EntityRec :=
  pushRecord (pushRecord w t.1 ⟨t.2.1, t.2.2⟩) t.2.1 ⟨t.1, t.2.2⟩

/-- `PhysicsSystem::run`: build the collision map, clear every record
list, then apply the map symmetrically. -/
def PhysicsSystem.run (w : List EntityRec) : List EntityRec :=
  (collisionMap w).foldl applyEntry (clearRecords w)

/-- The `collided_objects` list of the entity with id `i` (the component
returned by `physics_storage.get(i)`). -/
def recordsOf : List EntityRec → ℕ → List Collision
  | [], _ => []
  | r :: rest, i => if r.eid = i then r.phys.collided_objects else recordsOf rest i

/-- The records that the third loop appends for entity `i`, in order. -/
def contrib (i : ℕ) : List (ℕ × ℕ × Vec2) → List Collision
  | [] => []
  | t :: rest =>
    ((if t.1 = i then [(⟨t.2.1, t.2.2⟩ : Collision)] else []) ++
      (if t.2.1 = i then [(⟨t.1, t.2.2⟩ : Collision)] else [])) ++ contrib i rest

/-- Everything of an entity other than its collision-record list:
id, transform position and velocity. -/
def stateProj (r : EntityRec) : ℕ × Vec2 × Vec2 :=
  (r.eid, r.transform.position, r.phys.velocity)

/-- Two combinations touch different unordered id pairs. -/
def PairIdsDistinct (s t : EntityRec × EntityRec) : Prop :=
  ¬ ((s.1.eid = t.1.eid ∧ s.2.eid = t.2.eid) ∨ (s.1.eid = t.2.eid ∧ s.2.eid = t.1.eid))

/-- Two collision-map entries touch different unordered id pairs. -/
def EntryIdsDistinct (s t : ℕ × ℕ × Vec2) : Prop :=
  ¬ ((s.1 = t.1 ∧ s.2.1 = t.2.1) ∨ (s.1 = t.2.1 ∧ s.2.1 = t.1))

/-! ## main.rs: the ball-reaction system `UpdateBall` -/

/-- 2D vector over `ℝ`, for the gameplay resolver (it mixes positions and
velocities with `sin`/`cos` of sampled angles). -/
structure Vec2R where
  x : ℝ
  y : ℝ

/-- `impl Mul<f32> for Vec2` over `ℝ`. -/
noncomputable def Vec2R.mulScalar (self : Vec2R) (rhs : ℝ) : Vec2R :=
  ⟨self.x * rhs, self.y * rhs⟩

/-- `impl Mul<Vec2> for f32` over `ℝ`. -/
noncomputable def scalarMulVecR (self : ℝ) (rhs : Vec2R) : Vec2R := rhs.mulScalar self

/-- `Vec2::length` over `ℝ`: `self.dot(self).sqrt()`. -/
noncomputable def Vec2R.length (v : Vec2R) : ℝ := Real.sqrt (v.x * v.x + v.y * v.y)

/-- `Ball` component from main.rs; the paddle fields are entity ids. -/
structure Ball where
  left_paddle : ℕ
  right_paddle : ℕ

deriving instance DecidableEq for Ball

/-- `const BOUNCE_OFFSET: f32 = 15.0`. -/
def BOUNCE_OFFSET : ℝ := 15

/-- `f32::to_radians`. -/
noncomputable def toRadians (deg : ℝ) : ℝ := deg * (Real.pi / 180)

/-- One iteration of the record loop of `UpdateBall::run` (main.rs lines
81-97): `angle` is the value sampled by `rng.gen_range(-BOUNCE_OFFSET,
BOUNCE_OFFSET)` in the paddle branches (it is ignored by the wall
branch, which samples nothing). -/
noncomputable def bounce_step (ball : Ball) (other : ℕ) (v : Vec2R) (angle : ℝ) : Vec2R :=
  if other = ball.left_paddle then
    ⟨v.x * (-1), v.y + Real.sin (toRadians angle)⟩
  else if other = ball.right_paddle then
    ⟨v.x * (-1), v.y + Real.sin (toRadians angle)⟩
  else
    ⟨v.x, v.y * (-1)⟩

/-- The whole record loop: `collided` is the list of colliding entity ids
on the ball's `PhysicsComponent`, `angles k` is the `k`-th value produced
by the thread RNG (consumed only in the paddle branches). -/
noncomputable def update_velocity (ball : Ball) (angles : ℕ → ℝ) :
    List ℕ → ℕ → Vec2R → Vec2R
  | [], _, v => v
  | other :: rest, k, v =>
    let consumed :=
      if other = ball.left_paddle ∨ other = ball.right_paddle then k + 1 else k
    update_velocity ball angles rest consumed (bounce_step ball other v (angles k))

/-- The score/reset check of `UpdateBall::run` (main.rs lines 101-118),
applied to the already-integrated position: `reset_angle` is the value
sampled by `rng.gen_range(0.0, 360.0)` when a reset fires. -/
noncomputable def score_check (reset_angle : ℝ) (p v : Vec2R) :
    Vec2R × Vec2R × List String :=
  if p.x > 1.3 then
    (⟨0, 0⟩,
     scalarMulVecR 0.5 ⟨Real.cos (toRadians reset_angle), Real.sin (toRadians reset_angle)⟩,
     ["Player 2 has scored!"])
  else if p.x < -1.3 then
    (⟨0, 0⟩,
     scalarMulVecR 0.5 ⟨Real.cos (toRadians reset_angle), Real.sin (toRadians reset_angle)⟩,
     ["Player 1 has scored!"])
  else
    (p, v, [])

/-- The explicit-Euler integration of `UpdateBall::run` (main.rs lines
98-99): `position += velocity * deltatime`, componentwise. -/
noncomputable def integrated_position (ball : Ball) (angles : ℕ → ℝ) (dt : ℝ)
    (collided : List ℕ) (pos v : Vec2R) : Vec2R :=
  ⟨pos.x + (update_velocity ball angles collided 0 v).x * dt,
   pos.y + (update_velocity ball angles collided 0 v).y * dt⟩

/-- One tick of `UpdateBall::run` for one ball entity: bounce reactions,
then integration, then the score/reset check.  Returns the new position,
the new velocity, and the log lines printed. -/
noncomputable def update_ball (ball : Ball) (angles : ℕ → ℝ) (reset_angle dt : ℝ)
    (collided : List ℕ) (pos v : Vec2R) : Vec2R × Vec2R × List String :=
  score_check reset_angle (integrated_position ball angles dt collided pos v)
    (update_velocity ball angles collided 0 v)

/-! ## Concrete fixtures used by the witness theorems -/

/-- A 2×2 box centred on the origin (local frame). -/
def testBBox : AABB := AABB.new (Vec2.new 1 1) (Vec2.new (-1) (-1))

/-- Entity 0 at the origin. -/
def testE0 : EntityRec := ⟨0, ⟨Vec2.new 0 0, testBBox, []⟩, ⟨Vec2.new 0 0⟩⟩

/-- Entity 1 at (1,0): its world box overlaps entity 0's. -/
def testE1 : EntityRec := ⟨1, ⟨Vec2.new 0 0, testBBox, []⟩, ⟨Vec2.new 1 0⟩⟩

/-- Entity 2 at (10,0): its world box is disjoint from both others. -/
def testE2 : EntityRec := ⟨2, ⟨Vec2.new 0 0, testBBox, []⟩, ⟨Vec2.new 10 0⟩⟩

/-- A three-entity world: 0 and 1 overlap, 2 touches nothing. -/
def testWorld : List EntityRec := [testE0, testE1, testE2]

/-! ## Lemmas about `check_collision` -/

/-- Normal form of `check_collision`: the `WithTop` sentinel eliminated. -/
theorem check_collision_eq (a b : AABB) :
    a.check_collision b =
      if a.top_right.x < b.bot_left.x ∨ b.top_right.x < a.bot_left.x then none
      else if a.top_right.y < b.bot_left.y ∨ b.top_right.y < a.bot_left.y then none
      else if yOverlap a b < xOverlap a b then some (Vec2.new 0 1)
      else some (Vec2.new 1 0) := by
  unfold AABB.check_collision xOverlap yOverlap
  simp only [WithTop.coe_lt_top, if_true, WithTop.coe_lt_coe]

/-- `check_collision` returns `none` exactly on disjoint projections. -/
theorem check_collision_none_iff (a b : AABB) :
    a.check_collision b = none ↔ disjointX a b ∨ disjointY a b := by
  rw [check_collision_eq]
  unfold disjointX disjointY
  split_ifs with h1 h2 h3 <;> simp_all

/-- `none`-ness of `check_collision` is symmetric in its arguments. -/
theorem check_collision_none_symm (a b : AABB) :
    a.check_collision b = none ↔ b.check_collision a = none := by
  rw [check_collision_none_iff, check_collision_none_iff]
  unfold disjointX disjointY
  tauto

/-! ## Lemmas about the world structure -/

theorem ids_pushRecord (w : List EntityRec) (e : ℕ) (c : Collision) :
    ids (pushRecord w e c) = ids w := by
  simp only [ids, pushRecord, List.map_map]
  congr 1
  funext r
  by_cases h : r.eid = e <;> simp [h, Function.comp]

theorem ids_clearRecords (w : List EntityRec) : ids (clearRecords w) = ids w := by
  simp only [ids, clearRecords, List.map_map]
  congr 1

theorem ids_applyEntry (w : List EntityRec) (t : ℕ × ℕ × Vec2) :
    ids (applyEntry w t) = ids w := by
  unfold applyEntry
  rw [ids_pushRecord, ids_pushRecord]

theorem recordsOf_clearRecords (w : List EntityRec) (i : ℕ) :
    recordsOf (clearRecords w) i = [] := by
  induction w with
  | nil => rfl
  | cons r rest ih =>
    simp only [clearRecords, List.map_cons, recordsOf] at *
    by_cases h : r.eid = i <;> simp [h, ih]

theorem recordsOf_pushRecord (w : List EntityRec) (e : ℕ) (c : Collision) (i : ℕ) :
    recordsOf (pushRecord w e c) i =
      if i = e ∧ i ∈ ids w then recordsOf w i ++ [c] else recordsOf w i := by
  induction w with
  | nil => simp [recordsOf, pushRecord, ids]
  | cons r rest ih =>
    have hcons : pushRecord (r :: rest) e c =
        (if r.eid = e then
          { r with phys :=
            { r.phys with collided_objects := r.phys.collided_objects ++ [c] } }
        else r) :: pushRecord rest e c := rfl
    rw [hcons]
    by_cases hre : r.eid = e
    · rw [if_pos hre]
      by_cases hri : r.eid = i
      · have hie : i = e := by rw [← hri, hre]
        simp [recordsOf, hri, hie, ids]
      · have hne : ¬(i = e) := fun h => hri (by rw [hre, ← h])
        simp [recordsOf, hri, hne, ih, ids]
    · rw [if_neg hre]
      by_cases hri : r.eid = i
      · have hne : ¬(i = e) := fun h => hre (by rw [hri, ← h])
        simp [recordsOf, hri, hne, ids]
      · have hrr : recordsOf (r :: rest) i = recordsOf rest i := by
          simp [recordsOf, hri]
        have hmem : (i ∈ ids rest) ↔ (i ∈ ids (r :: rest)) := by
          simp only [ids, List.map_cons, List.mem_cons]
          constructor
          · exact fun h => Or.inr h
          · rintro (h | h)
            · exact absurd h.symm hri
            · exact h
        calc recordsOf ((r :: pushRecord rest e c : List EntityRec)) i
            = recordsOf (pushRecord rest e c) i := by simp [recordsOf, hri]
          _ = if i = e ∧ i ∈ ids rest then recordsOf rest i ++ [c]
              else recordsOf rest i := ih
          _ = if i = e ∧ i ∈ ids (r :: rest) then recordsOf (r :: rest) i ++ [c]
              else recordsOf (r :: rest) i :=
            if_congr (by rw [hmem]) (by rw [hrr]) (by rw [hrr])

theorem recordsOf_applyEntry (w : List EntityRec) (t : ℕ × ℕ × Vec2) (i : ℕ)
    (h1 : t.1 ∈ ids w) (h2 : t.2.1 ∈ ids w) :
    recordsOf (applyEntry w t) i =
      recordsOf w i ++
        ((if t.1 = i then [(⟨t.2.1, t.2.2⟩ : Collision)] else []) ++
          (if t.2.1 = i then [(⟨t.1, t.2.2⟩ : Collision)] else [])) := by
  have c1 : (i = t.1 ∧ i ∈ ids w) ↔ t.1 = i :=
    ⟨fun h => h.1.symm, fun h => ⟨h.symm, h ▸ h1⟩⟩
  have c2 : (i = t.2.1 ∧ i ∈ ids w) ↔ t.2.1 = i :=
    ⟨fun h => h.1.symm, fun h => ⟨h.symm, h ▸ h2⟩⟩
  unfold applyEntry
  rw [recordsOf_pushRecord, ids_pushRecord, recordsOf_pushRecord]
  by_cases hi1 : t.1 = i <;> by_cases hi2 : t.2.1 = i
  · have hiw : i ∈ ids w := hi1 ▸ h1
    simp [c1, c2, hi1, hi2, hiw, List.append_assoc]
  · have hiw : i ∈ ids w := hi1 ▸ h1
    have hni : ¬(i = t.2.1) := fun h => hi2 h.symm
    simp [c1, c2, hi1, hi2, hiw, hni]
  · have hiw : i ∈ ids w := hi2 ▸ h2
    have hni : ¬(i = t.1) := fun h => hi1 h.symm
    simp [c1, c2, hi1, hi2, hiw, hni]
  · simp [c1, c2, hi1, hi2]

theorem recordsOf_foldl (cs : List (ℕ × ℕ × Vec2)) (w : List EntityRec)
    (hcs : ∀ t ∈ cs, t.1 ∈ ids w ∧ t.2.1 ∈ ids w) (i : ℕ) :
    recordsOf (cs.foldl applyEntry w) i = recordsOf w i ++ contrib i cs := by
  induction cs generalizing w with
  | nil => simp [contrib]
  | cons t rest ih =>
    have ht := hcs t (by simp)
    rw [List.foldl_cons,
      ih (applyEntry w t)
        (fun s hs => by rw [ids_applyEntry]; exact hcs s (by simp [hs])),
      recordsOf_applyEntry w t i ht.1 ht.2]
    simp [contrib]

theorem pairsOf_mem {w : List EntityRec} {t : EntityRec × EntityRec}
    (h : t ∈ pairsOf w) : t.1 ∈ w ∧ t.2 ∈ w := by
  induction w with
  | nil => simp [pairsOf] at h
  | cons x xs ih =>
    simp only [pairsOf, List.mem_append, List.mem_map] at h
    rcases h with ⟨y, hy, rfl⟩ | h
    · exact ⟨by simp, by simp [hy]⟩
    · rcases ih h with ⟨ht1, ht2⟩
      exact ⟨by simp [ht1], by simp [ht2]⟩

theorem pairsOf_eid_ne : ∀ {w : List EntityRec}, (ids w).Nodup →
    ∀ {a b : EntityRec}, (a, b) ∈ pairsOf w → a.eid ≠ b.eid := by
  intro w
  induction w with
  | nil => intro _ a b h; simp [pairsOf] at h
  | cons x xs ih =>
    intro hnd a b h
    simp only [ids, List.map_cons, List.nodup_cons] at hnd
    simp only [pairsOf, List.mem_append, List.mem_map] at h
    rcases h with ⟨y, hy, heq⟩ | h
    · cases heq
      intro hcontra
      exact hnd.1 (hcontra ▸ List.mem_map_of_mem _ hy)
    · exact ih hnd.2 h

theorem pairsOf_total : ∀ {w : List EntityRec} {p q : EntityRec}, p ∈ w → q ∈ w →
    p ≠ q → (p, q) ∈ pairsOf w ∨ (q, p) ∈ pairsOf w := by
  intro w
  induction w with
  | nil => intro p q hp; simp at hp
  | cons x xs ih =>
    intro p q hp hq hne
    rcases List.mem_cons.mp hp with rfl | hp'
    · rcases List.mem_cons.mp hq with rfl | hq'
      · exact absurd rfl hne
      · left
        simp only [pairsOf, List.mem_append, List.mem_map]
        exact Or.inl ⟨q, hq', rfl⟩
    · rcases List.mem_cons.mp hq with rfl | hq'
      · right
        simp only [pairsOf, List.mem_append, List.mem_map]
        exact Or.inl ⟨p, hp', rfl⟩
      · rcases ih hp' hq' hne with h | h
        · left
          simp only [pairsOf, List.mem_append]
          exact Or.inr h
        · right
          simp only [pairsOf, List.mem_append]
          exact Or.inr h

theorem pairIdsDistinct_symm : Symmetric PairIdsDistinct := by
  intro s t h hcontra
  exact h (by tauto)

theorem pairsOf_pairwise : ∀ {w : List EntityRec}, (ids w).Nodup →
    (pairsOf w).Pairwise PairIdsDistinct := by
  intro w
  induction w with
  | nil => intro _; simp [pairsOf]
  | cons x xs ih =>
    intro hnd
    simp only [ids, List.map_cons, List.nodup_cons] at hnd
    obtain ⟨hx, hnd'⟩ := hnd
    simp only [pairsOf]
    rw [List.pairwise_append]
    refine ⟨?_, ih hnd', ?_⟩
    · rw [List.pairwise_map]
      have hpw : xs.Pairwise (fun y1 y2 => y1.eid ≠ y2.eid) := by
        have := hnd'
        unfold List.Nodup at this
        rwa [List.pairwise_map] at this
      have hpw2 := List.Pairwise.and_mem.mp hpw
      refine hpw2.imp ?_
      intro y1 y2 hy hcontra
      rcases hcontra with ⟨_, hyeq⟩ | ⟨hxy, _⟩
      · exact hy.2.2 hyeq
      · exact hx (hxy ▸ List.mem_map_of_mem _ hy.2.1)
    · intro s hs t ht
      obtain ⟨y, hy, rfl⟩ := List.mem_map.mp hs
      obtain ⟨ht1, ht2⟩ := pairsOf_mem ht
      intro hcontra
      rcases hcontra with ⟨h1, _⟩ | ⟨h1, _⟩
      · exact hx (h1 ▸ List.mem_map_of_mem _ ht1)
      · exact hx (h1 ▸ List.mem_map_of_mem _ ht2)

theorem pairsOf_unique {w : List EntityRec} (hnd : (ids w).Nodup)
    {a b c d : EntityRec} {i j : ℕ}
    (h1 : (a, b) ∈ pairsOf w) (h2 : (c, d) ∈ pairsOf w)
    (m1 : (a.eid = i ∧ b.eid = j) ∨ (a.eid = j ∧ b.eid = i))
    (m2 : (c.eid = i ∧ d.eid = j) ∨ (c.eid = j ∧ d.eid = i)) :
    a = c ∧ b = d := by
  by_cases heq : (a, b) = (c, d)
  · exact ⟨congrArg Prod.fst heq, congrArg Prod.snd heq⟩
  · exfalso
    apply List.Pairwise.forall pairIdsDistinct_symm (pairsOf_pairwise hnd) h1 h2 heq
    rcases m1 with ⟨ha, hb⟩ | ⟨ha, hb⟩ <;> rcases m2 with ⟨hc, hd⟩ | ⟨hc, hd⟩ <;>
      simp only [] <;> omega

theorem eid_inj {w : List EntityRec} (hnd : (ids w).Nodup) {a b : EntityRec}
    (ha : a ∈ w) (hb : b ∈ w) (h : a.eid = b.eid) : a = b :=
  List.inj_on_of_nodup_map (by simpa [ids] using hnd) ha hb h

theorem mem_collisionMap {w : List EntityRec} {t : ℕ × ℕ × Vec2} :
    t ∈ collisionMap w ↔
      ∃ a b axis, (a, b) ∈ pairsOf w ∧
        (worldBox a).check_collision (worldBox b) = some axis ∧
        t = (a.eid, b.eid, orientAxis axis a.transform b.transform) := by
  unfold collisionMap
  rw [List.mem_filterMap]
  constructor
  · rintro ⟨⟨a, b⟩, hmem, heq⟩
    unfold collisionEntry at heq
    rcases hcheck : (worldBox a).check_collision (worldBox b) with _ | axis
    · rw [hcheck] at heq
      simp at heq
    · rw [hcheck] at heq
      simp only [Option.some.injEq] at heq
      exact ⟨a, b, axis, hmem, hcheck, heq.symm⟩
  · rintro ⟨a, b, axis, hmem, hcheck, rfl⟩
    refine ⟨(a, b), hmem, ?_⟩
    unfold collisionEntry
    rw [hcheck]

theorem mem_contrib {i : ℕ} : ∀ {cs : List (ℕ × ℕ × Vec2)} {c : Collision},
    c ∈ contrib i cs ↔ ∃ t ∈ cs,
      (t.1 = i ∧ c = ⟨t.2.1, t.2.2⟩) ∨ (t.2.1 = i ∧ c = ⟨t.1, t.2.2⟩) := by
  intro cs
  induction cs with
  | nil => intro c; simp [contrib]
  | cons t rest ih =>
    intro c
    by_cases h1 : t.1 = i <;> by_cases h2 : t.2.1 = i <;>
      simp [contrib, h1, h2, ih, List.mem_append]

theorem contrib_nodup {i : ℕ} : ∀ {cs : List (ℕ × ℕ × Vec2)},
    cs.Pairwise EntryIdsDistinct → (∀ t ∈ cs, t.1 ≠ t.2.1) →
    ((contrib i cs).map Collision.other).Nodup := by
  intro cs
  induction cs with
  | nil => intro _ _; simp [contrib]
  | cons t rest ih =>
    intro hpw hne
    rw [List.pairwise_cons] at hpw
    obtain ⟨hhead, hrest⟩ := hpw
    have htne := hne t (by simp)
    have ihr := ih hrest (fun s hs => hne s (by simp [hs]))
    have hdisj : ∀ j, j ∈ ((if t.1 = i then [(⟨t.2.1, t.2.2⟩ : Collision)] else []) ++
        (if t.2.1 = i then [(⟨t.1, t.2.2⟩ : Collision)] else [])).map Collision.other →
        j ∉ (contrib i rest).map Collision.other := by
      intro j hj hj'
      obtain ⟨c, hc, hco⟩ := List.mem_map.mp hj'
      obtain ⟨s, hs, hcase⟩ := mem_contrib.mp hc
      have hEID := hhead s hs
      simp only [List.map_append, List.mem_append, List.mem_map] at hj
      rcases hj with ⟨c0, hc0, hco0⟩ | ⟨c0, hc0, hco0⟩
      · by_cases h1 : t.1 = i
        · rw [if_pos h1] at hc0
          simp only [List.mem_singleton] at hc0
          subst hc0
          rcases hcase with ⟨hs1, rfl⟩ | ⟨hs1, rfl⟩ <;>
            exact hEID (by simp_all)
        · rw [if_neg h1] at hc0
          simp at hc0
      · by_cases h2 : t.2.1 = i
        · rw [if_pos h2] at hc0
          simp only [List.mem_singleton] at hc0
          subst hc0
          rcases hcase with ⟨hs1, rfl⟩ | ⟨hs1, rfl⟩ <;>
            exact hEID (by simp_all)
        · rw [if_neg h2] at hc0
          simp at hc0
    have hheadnd : (((if t.1 = i then [(⟨t.2.1, t.2.2⟩ : Collision)] else []) ++
        (if t.2.1 = i then [(⟨t.1, t.2.2⟩ : Collision)] else [])).map Collision.other).Nodup := by
      by_cases h1 : t.1 = i <;> by_cases h2 : t.2.1 = i
      · exact absurd (h1.trans h2.symm) htne
      · simp [h1, h2]
      · simp [h1, h2]
      · simp [h1, h2]
    show ((((if t.1 = i then [(⟨t.2.1, t.2.2⟩ : Collision)] else []) ++
        (if t.2.1 = i then [(⟨t.1, t.2.2⟩ : Collision)] else [])) ++ contrib i rest).map
          Collision.other).Nodup
    rw [List.map_append, List.nodup_append]
    refine ⟨hheadnd, ihr, ?_⟩
    intro j hj
    exact hdisj j hj

theorem collisionMap_ids_mem {w : List EntityRec} {t : ℕ × ℕ × Vec2}
    (ht : t ∈ collisionMap w) : t.1 ∈ ids w ∧ t.2.1 ∈ ids w := by
  obtain ⟨a, b, axis, hmem, _, rfl⟩ := mem_collisionMap.mp ht
  obtain ⟨ha, hb⟩ := pairsOf_mem hmem
  exact ⟨List.mem_map_of_mem _ ha, List.mem_map_of_mem _ hb⟩

theorem collisionMap_entry_ne {w : List EntityRec} (hnd : (ids w).Nodup)
    {t : ℕ × ℕ × Vec2} (ht : t ∈ collisionMap w) : t.1 ≠ t.2.1 := by
  obtain ⟨a, b, axis, hmem, _, rfl⟩ := mem_collisionMap.mp ht
  exact pairsOf_eid_ne hnd hmem

theorem pairwise_filterMap_of {α β : Type} {R : α → α → Prop} {S : β → β → Prop}
    (f : α → Option β)
    (h : ∀ a b, R a b → ∀ x, f a = some x → ∀ y, f b = some y → S x y) :
    ∀ {l : List α}, l.Pairwise R → (l.filterMap f).Pairwise S := by
  intro l hl
  induction hl with
  | nil => simp
  | @cons p rest hhead _ ih =>
    rw [List.filterMap_cons]
    rcases hE : f p with _ | e
    · exact ih
    · rw [List.pairwise_cons]
      refine ⟨?_, ih⟩
      intro e2 he2
      obtain ⟨q, hq, hEq⟩ := List.mem_filterMap.mp he2
      exact h p q (hhead q hq) e hE e2 hEq

theorem collisionMap_pairwise {w : List EntityRec} (hnd : (ids w).Nodup) :
    (collisionMap w).Pairwise EntryIdsDistinct := by
  unfold collisionMap
  refine pairwise_filterMap_of collisionEntry ?_ (pairsOf_pairwise hnd)
  intro p q hP e1 hE1 e2 hE2
  unfold collisionEntry at hE1 hE2
  rcases h1 : (worldBox p.1).check_collision (worldBox p.2) with _ | ax1 <;>
    rw [h1] at hE1
  · simp at hE1
  rcases h2 : (worldBox q.1).check_collision (worldBox q.2) with _ | ax2 <;>
    rw [h2] at hE2
  · simp at hE2
  simp only [Option.some.injEq] at hE1 hE2
  subst hE1
  subst hE2
  intro hcontra
  exact hP hcontra

theorem recordsOf_run (w : List EntityRec) (i : ℕ) :
    recordsOf (PhysicsSystem.run w) i = contrib i (collisionMap w) := by
  unfold PhysicsSystem.run
  rw [recordsOf_foldl _ _
    (fun t ht => by
      rw [ids_clearRecords]
      exact collisionMap_ids_mem ht) i]
  rw [recordsOf_clearRecords]
  simp

theorem mem_records_run_iff {w : List EntityRec} {p : EntityRec} {j : ℕ}
    (hnd : (ids w).Nodup) (hp : p ∈ w) :
    (∃ c ∈ recordsOf (PhysicsSystem.run w) p.eid, c.other = j) ↔
      ∃ q ∈ w, q.eid = j ∧ j ≠ p.eid ∧
        (worldBox p).check_collision (worldBox q) ≠ none := by
  rw [recordsOf_run]
  constructor
  · rintro ⟨c, hc, rfl⟩
    obtain ⟨t, ht, hcase⟩ := mem_contrib.mp hc
    obtain ⟨a, b, axis, hmem, hcheck, rfl⟩ := mem_collisionMap.mp ht
    obtain ⟨ha, hb⟩ := pairsOf_mem hmem
    have hab := pairsOf_eid_ne hnd hmem
    rcases hcase with ⟨h1, rfl⟩ | ⟨h1, rfl⟩
    · have hap : a = p := eid_inj hnd ha hp h1
      subst hap
      exact ⟨b, hb, rfl, fun h => hab h.symm, fun hnone => by rw [hcheck] at hnone; simp at hnone⟩
    · have hbp : b = p := eid_inj hnd hb hp h1
      subst hbp
      refine ⟨a, ha, rfl, hab, fun hnone => ?_⟩
      rw [(check_collision_none_symm _ _).mp hnone] at hcheck
      simp at hcheck
  · rintro ⟨q, hq, rfl, hj, hcol⟩
    have hpq : p ≠ q := fun h => hj (by rw [h])
    rcases pairsOf_total hp hq hpq with hmem | hmem
    · obtain ⟨axis, hax⟩ := Option.ne_none_iff_exists'.mp hcol
      refine ⟨⟨q.eid, (orientAxis axis p.transform q.transform : Vec2)⟩, ?_, rfl⟩
      exact mem_contrib.mpr ⟨(p.eid, q.eid, orientAxis axis p.transform q.transform),
        mem_collisionMap.mpr ⟨p, q, axis, hmem, hax, rfl⟩, Or.inl ⟨rfl, rfl⟩⟩
    · have hcol' : (worldBox q).check_collision (worldBox p) ≠ none :=
        fun h => hcol ((check_collision_none_symm _ _).mpr h)
      obtain ⟨axis, hax⟩ := Option.ne_none_iff_exists'.mp hcol'
      refine ⟨⟨q.eid, (orientAxis axis q.transform p.transform : Vec2)⟩, ?_, rfl⟩
      exact mem_contrib.mpr ⟨(q.eid, p.eid, orientAxis axis q.transform p.transform),
        mem_collisionMap.mpr ⟨q, p, axis, hmem, hax, rfl⟩, Or.inr ⟨rfl, rfl⟩⟩

theorem stateProj_pushRecord (w : List EntityRec) (e : ℕ) (c : Collision) :
    (pushRecord w e c).map stateProj = w.map stateProj := by
  simp only [pushRecord, List.map_map]
  congr 1
  funext r
  by_cases h : r.eid = e <;> simp [stateProj, h, Function.comp]

theorem stateProj_clearRecords (w : List EntityRec) :
    (clearRecords w).map stateProj = w.map stateProj := by
  simp only [clearRecords, List.map_map]
  congr 1

theorem stateProj_run (w : List EntityRec) :
    (PhysicsSystem.run w).map stateProj = w.map stateProj := by
  unfold PhysicsSystem.run
  have hfold : ∀ (cs : List (ℕ × ℕ × Vec2)) (w0 : List EntityRec),
      (cs.foldl applyEntry w0).map stateProj = w0.map stateProj := by
    intro cs
    induction cs with
    | nil => intro w0; rfl
    | cons t rest ih =>
      intro w0
      rw [List.foldl_cons, ih]
      unfold applyEntry
      rw [stateProj_pushRecord, stateProj_pushRecord]
  rw [hfold, stateProj_clearRecords]

theorem foldStep_bounds : ∀ (l : List Vertex) (acc : Vec2 × Vec2),
    ((l.foldl foldStep acc).1.x ≤ acc.1.x ∧ (l.foldl foldStep acc).1.y ≤ acc.1.y ∧
      acc.2.x ≤ (l.foldl foldStep acc).2.x ∧ acc.2.y ≤ (l.foldl foldStep acc).2.y) ∧
    ∀ v ∈ l, (l.foldl foldStep acc).1.x ≤ v.position.x ∧
      (l.foldl foldStep acc).1.y ≤ v.position.y ∧
      v.position.x ≤ (l.foldl foldStep acc).2.x ∧
      v.position.y ≤ (l.foldl foldStep acc).2.y := by
  intro l
  induction l with
  | nil => intro acc; simp
  | cons v rest ih =>
    intro acc
    rw [List.foldl_cons]
    obtain ⟨⟨m1, m2, m3, m4⟩, hall⟩ := ih (foldStep acc v)
    have hstep : (foldStep acc v).1.x ≤ acc.1.x ∧ (foldStep acc v).1.y ≤ acc.1.y ∧
        acc.2.x ≤ (foldStep acc v).2.x ∧ acc.2.y ≤ (foldStep acc v).2.y ∧
        (foldStep acc v).1.x ≤ v.position.x ∧ (foldStep acc v).1.y ≤ v.position.y ∧
        v.position.x ≤ (foldStep acc v).2.x ∧ v.position.y ≤ (foldStep acc v).2.y := by
      simp only [foldStep, Vec2.new]
      split_ifs <;> simp_all [not_lt] <;> and_intros <;> linarith
    obtain ⟨s1, s2, s3, s4, s5, s6, s7, s8⟩ := hstep
    refine ⟨⟨le_trans m1 s1, le_trans m2 s2, le_trans s3 m3, le_trans s4 m4⟩, ?_⟩
    intro u hu
    rcases List.mem_cons.mp hu with rfl | hu'
    · exact ⟨le_trans m1 s5, le_trans m2 s6, le_trans s7 m3, le_trans s8 m4⟩
    · exact hall u hu'

/-! ## Claim theorems -/

/-- C1: for every pair of overlapping boxes (projections not disjoint on X
nor on Y), `check_collision` returns an axis that is exactly `(1,0)` or
`(0,1)` — never diagonal — namely the axis of the strictly smaller overlap
length; when the two overlap lengths are equal the X axis is chosen. -/
theorem check_collision_min_overlap_axis (a b : AABB)
    (hx : ¬ disjointX a b) (hy : ¬ disjointY a b) :
    ∃ axis, a.check_collision b = some axis ∧
      (axis = Vec2.new 1 0 ∨ axis = Vec2.new 0 1) ∧
      (xOverlap a b ≤ yOverlap a b → axis = Vec2.new 1 0) ∧
      (yOverlap a b < xOverlap a b → axis = Vec2.new 0 1) := by
  unfold disjointX at hx
  unfold disjointY at hy
  rw [check_collision_eq, if_neg hx, if_neg hy]
  by_cases h : yOverlap a b < xOverlap a b
  · rw [if_pos h]
    exact ⟨_, rfl, Or.inr rfl, fun hle => absurd h (not_lt.mpr hle), fun _ => rfl⟩
  · rw [if_neg h]
    exact ⟨_, rfl, Or.inl rfl, fun _ => rfl, fun hlt => absurd hlt h⟩

theorem check_collision_min_overlap_axis_witness :
    (¬ disjointX (AABB.new (Vec2.new 2 1) (Vec2.new 0 0))
        (AABB.new (Vec2.new 3 2) (Vec2.new 1 (-1)))) ∧
    (¬ disjointY (AABB.new (Vec2.new 2 1) (Vec2.new 0 0))
        (AABB.new (Vec2.new 3 2) (Vec2.new 1 (-1)))) ∧
    ∃ axis, (AABB.new (Vec2.new 2 1) (Vec2.new 0 0)).check_collision
        (AABB.new (Vec2.new 3 2) (Vec2.new 1 (-1))) = some axis ∧
      (axis = Vec2.new 1 0 ∨ axis = Vec2.new 0 1) ∧
      (xOverlap (AABB.new (Vec2.new 2 1) (Vec2.new 0 0))
          (AABB.new (Vec2.new 3 2) (Vec2.new 1 (-1))) ≤
        yOverlap (AABB.new (Vec2.new 2 1) (Vec2.new 0 0))
          (AABB.new (Vec2.new 3 2) (Vec2.new 1 (-1))) → axis = Vec2.new 1 0) ∧
      (yOverlap (AABB.new (Vec2.new 2 1) (Vec2.new 0 0))
          (AABB.new (Vec2.new 3 2) (Vec2.new 1 (-1))) <
        xOverlap (AABB.new (Vec2.new 2 1) (Vec2.new 0 0))
          (AABB.new (Vec2.new 3 2) (Vec2.new 1 (-1))) → axis = Vec2.new 0 1) :=
  ⟨by decide, by decide,
    check_collision_min_overlap_axis _ _ (by decide) (by decide)⟩

/-- C10: boxes whose world intervals merely touch on an axis
(`this_max` exactly equals `other_min`, a zero-length overlap) are
reported as colliding, not separated: the early-out uses strict `<`, so
boundary contact yields `some axis` with overlap length 0 on the touching
axis, and the zero-overlap axis is the reported one whenever the other
axis's overlap is positive — X-touch reports `(1,0)`, Y-touch reports
`(0,1)`. -/
theorem touching_boxes_collide (a b : AABB)
    (hwa : a.bot_left.x ≤ a.top_right.x ∧ a.bot_left.y ≤ a.top_right.y)
    (hwb : b.bot_left.x ≤ b.top_right.x ∧ b.bot_left.y ≤ b.top_right.y) :
    (a.top_right.x = b.bot_left.x → 0 < yOverlap a b →
      a.check_collision b = some (Vec2.new 1 0) ∧ xOverlap a b = 0) ∧
    (a.top_right.y = b.bot_left.y → 0 < xOverlap a b →
      a.check_collision b = some (Vec2.new 0 1) ∧ yOverlap a b = 0) := by
  obtain ⟨hwax, hway⟩ := hwa
  obtain ⟨hwbx, hwby⟩ := hwb
  constructor
  · intro htouch hy
    have hxov : xOverlap a b = 0 := by
      unfold xOverlap
      rw [min_eq_left (by linarith : a.top_right.x ≤ b.top_right.x),
        max_eq_right (by linarith : a.bot_left.x ≤ b.bot_left.x)]
      linarith
    have hx : ¬ (a.top_right.x < b.bot_left.x ∨ b.top_right.x < a.bot_left.x) := by
      rintro (h | h) <;> linarith
    have hyd : ¬ (a.top_right.y < b.bot_left.y ∨ b.top_right.y < a.bot_left.y) := by
      unfold yOverlap at hy
      rintro (h | h)
      · linarith [min_le_left a.top_right.y b.top_right.y,
          le_max_right a.bot_left.y b.bot_left.y]
      · linarith [min_le_right a.top_right.y b.top_right.y,
          le_max_left a.bot_left.y b.bot_left.y]
    rw [check_collision_eq, if_neg hx, if_neg hyd,
      if_neg (by rw [hxov]; linarith : ¬ yOverlap a b < xOverlap a b)]
    exact ⟨rfl, hxov⟩
  · intro htouch hx
    have hyov : yOverlap a b = 0 := by
      unfold yOverlap
      rw [min_eq_left (by linarith : a.top_right.y ≤ b.top_right.y),
        max_eq_right (by linarith : a.bot_left.y ≤ b.bot_left.y)]
      linarith
    have hxd : ¬ (a.top_right.x < b.bot_left.x ∨ b.top_right.x < a.bot_left.x) := by
      unfold xOverlap at hx
      rintro (h | h)
      · linarith [min_le_left a.top_right.x b.top_right.x,
          le_max_right a.bot_left.x b.bot_left.x]
      · linarith [min_le_right a.top_right.x b.top_right.x,
          le_max_left a.bot_left.x b.bot_left.x]
    have hyd : ¬ (a.top_right.y < b.bot_left.y ∨ b.top_right.y < a.bot_left.y) := by
      rintro (h | h) <;> linarith
    rw [check_collision_eq, if_neg hxd, if_neg hyd,
      if_pos (show yOverlap a b < xOverlap a b by rw [hyov]; exact hx)]
    exact ⟨rfl, hyov⟩

theorem touching_boxes_collide_witness :
    (((AABB.new (Vec2.new 1 1) (Vec2.new 0 0)).bot_left.x ≤
        (AABB.new (Vec2.new 1 1) (Vec2.new 0 0)).top_right.x ∧
      (AABB.new (Vec2.new 1 1) (Vec2.new 0 0)).bot_left.y ≤
        (AABB.new (Vec2.new 1 1) (Vec2.new 0 0)).top_right.y) ∧
     ((AABB.new (Vec2.new 2 1) (Vec2.new 1 0)).bot_left.x ≤
        (AABB.new (Vec2.new 2 1) (Vec2.new 1 0)).top_right.x ∧
      (AABB.new (Vec2.new 2 1) (Vec2.new 1 0)).bot_left.y ≤
        (AABB.new (Vec2.new 2 1) (Vec2.new 1 0)).top_right.y) ∧
     ((AABB.new (Vec2.new 1 1) (Vec2.new 0 0)).top_right.x =
        (AABB.new (Vec2.new 2 1) (Vec2.new 1 0)).bot_left.x) ∧
     (0 < yOverlap (AABB.new (Vec2.new 1 1) (Vec2.new 0 0))
        (AABB.new (Vec2.new 2 1) (Vec2.new 1 0))) ∧
     (((AABB.new (Vec2.new 1 1) (Vec2.new 0 0)).top_right.x =
          (AABB.new (Vec2.new 2 1) (Vec2.new 1 0)).bot_left.x →
        0 < yOverlap (AABB.new (Vec2.new 1 1) (Vec2.new 0 0))
          (AABB.new (Vec2.new 2 1) (Vec2.new 1 0)) →
        (AABB.new (Vec2.new 1 1) (Vec2.new 0 0)).check_collision
            (AABB.new (Vec2.new 2 1) (Vec2.new 1 0)) = some (Vec2.new 1 0) ∧
          xOverlap (AABB.new (Vec2.new 1 1) (Vec2.new 0 0))
            (AABB.new (Vec2.new 2 1) (Vec2.new 1 0)) = 0) ∧
      ((AABB.new (Vec2.new 1 1) (Vec2.new 0 0)).top_right.y =
          (AABB.new (Vec2.new 2 1) (Vec2.new 1 0)).bot_left.y →
        0 < xOverlap (AABB.new (Vec2.new 1 1) (Vec2.new 0 0))
          (AABB.new (Vec2.new 2 1) (Vec2.new 1 0)) →
        (AABB.new (Vec2.new 1 1) (Vec2.new 0 0)).check_collision
            (AABB.new (Vec2.new 2 1) (Vec2.new 1 0)) = some (Vec2.new 0 1) ∧
          yOverlap (AABB.new (Vec2.new 1 1) (Vec2.new 0 0))
            (AABB.new (Vec2.new 2 1) (Vec2.new 1 0)) = 0))) ∧
    (((AABB.new (Vec2.new 1 1) (Vec2.new 0 0)).bot_left.x ≤
        (AABB.new (Vec2.new 1 1) (Vec2.new 0 0)).top_right.x ∧
      (AABB.new (Vec2.new 1 1) (Vec2.new 0 0)).bot_left.y ≤
        (AABB.new (Vec2.new 1 1) (Vec2.new 0 0)).top_right.y) ∧
     ((AABB.new (Vec2.new 1 2) (Vec2.new 0 1)).bot_left.x ≤
        (AABB.new (Vec2.new 1 2) (Vec2.new 0 1)).top_right.x ∧
      (AABB.new (Vec2.new 1 2) (Vec2.new 0 1)).bot_left.y ≤
        (AABB.new (Vec2.new 1 2) (Vec2.new 0 1)).top_right.y) ∧
     ((AABB.new (Vec2.new 1 1) (Vec2.new 0 0)).top_right.y =
        (AABB.new (Vec2.new 1 2) (Vec2.new 0 1)).bot_left.y) ∧
     (0 < xOverlap (AABB.new (Vec2.new 1 1) (Vec2.new 0 0))
        (AABB.new (Vec2.new 1 2) (Vec2.new 0 1))) ∧
     (((AABB.new (Vec2.new 1 1) (Vec2.new 0 0)).top_right.x =
          (AABB.new (Vec2.new 1 2) (Vec2.new 0 1)).bot_left.x →
        0 < yOverlap (AABB.new (Vec2.new 1 1) (Vec2.new 0 0))
          (AABB.new (Vec2.new 1 2) (Vec2.new 0 1)) →
        (AABB.new (Vec2.new 1 1) (Vec2.new 0 0)).check_collision
            (AABB.new (Vec2.new 1 2) (Vec2.new 0 1)) = some (Vec2.new 1 0) ∧
          xOverlap (AABB.new (Vec2.new 1 1) (Vec2.new 0 0))
            (AABB.new (Vec2.new 1 2) (Vec2.new 0 1)) = 0) ∧
      ((AABB.new (Vec2.new 1 1) (Vec2.new 0 0)).top_right.y =
          (AABB.new (Vec2.new 1 2) (Vec2.new 0 1)).bot_left.y →
        0 < xOverlap (AABB.new (Vec2.new 1 1) (Vec2.new 0 0))
          (AABB.new (Vec2.new 1 2) (Vec2.new 0 1)) →
        (AABB.new (Vec2.new 1 1) (Vec2.new 0 0)).check_collision
            (AABB.new (Vec2.new 1 2) (Vec2.new 0 1)) = some (Vec2.new 0 1) ∧
          yOverlap (AABB.new (Vec2.new 1 1) (Vec2.new 0 0))
            (AABB.new (Vec2.new 1 2) (Vec2.new 0 1)) = 0))) :=
  ⟨⟨⟨by decide, by decide⟩, ⟨by decide, by decide⟩, by decide,
      by norm_num [yOverlap, AABB.new, Vec2.new, min_def, max_def],
      touching_boxes_collide (AABB.new (Vec2.new 1 1) (Vec2.new 0 0))
        (AABB.new (Vec2.new 2 1) (Vec2.new 1 0))
        ⟨by decide, by decide⟩ ⟨by decide, by decide⟩⟩,
    ⟨⟨by decide, by decide⟩, ⟨by decide, by decide⟩, by decide,
      by norm_num [xOverlap, AABB.new, Vec2.new, min_def, max_def],
      touching_boxes_collide (AABB.new (Vec2.new 1 1) (Vec2.new 0 0))
        (AABB.new (Vec2.new 1 2) (Vec2.new 0 1))
        ⟨by decide, by decide⟩ ⟨by decide, by decide⟩⟩⟩

/-- C2: two boxes whose world projections are disjoint on X or on Y are
reported as not colliding (`check_collision` is `none`), and after
`PhysicsSystem::run` no collision record for that pair exists on either
entity's list. -/
theorem disjoint_no_collision (w : List EntityRec) (p q : EntityRec)
    (hnd : (ids w).Nodup) (hp : p ∈ w) (hq : q ∈ w)
    (hdisj : disjointX (worldBox p) (worldBox q) ∨ disjointY (worldBox p) (worldBox q)) :
    (worldBox p).check_collision (worldBox q) = none ∧
    ∀ c ∈ recordsOf (PhysicsSystem.run w) p.eid, c.other ≠ q.eid := by
  have hnone : (worldBox p).check_collision (worldBox q) = none :=
    (check_collision_none_iff _ _).mpr hdisj
  refine ⟨hnone, ?_⟩
  intro c hc hco
  obtain ⟨q', hq', hqe, _, hcol⟩ := (mem_records_run_iff hnd hp).mp ⟨c, hc, hco⟩
  have hqq : q' = q := eid_inj hnd hq' hq hqe
  subst hqq
  exact hcol hnone

theorem disjoint_no_collision_witness :
    (ids testWorld).Nodup ∧ testE0 ∈ testWorld ∧ testE2 ∈ testWorld ∧
    (disjointX (worldBox testE0) (worldBox testE2) ∨
      disjointY (worldBox testE0) (worldBox testE2)) ∧
    ((worldBox testE0).check_collision (worldBox testE2) = none ∧
      ∀ c ∈ recordsOf (PhysicsSystem.run testWorld) testE0.eid, c.other ≠ testE2.eid) :=
  ⟨by decide, by decide, by decide,
    by norm_num [disjointX, disjointY, worldBox, AABB.adjust_position, testE0, testE2,
      testBBox, AABB.new, Vec2.new],
    disjoint_no_collision testWorld testE0 testE2 (by decide) (by decide) (by decide)
      (by norm_num [disjointX, disjointY, worldBox, AABB.adjust_position, testE0, testE2,
        testBBox, AABB.new, Vec2.new])⟩

/-- C3: after `PhysicsSystem::run`, every entity's `collided_objects` list
holds exactly one record per distinct partner whose world box overlaps its
own in the current frame: the partner ids are duplicate-free, and an id
appears iff it belongs to a distinct entity of the world whose box
collides with this one.  Nothing of the pre-run record lists survives (the
characterisation does not depend on them), and the list is empty when no
partner overlaps. -/
theorem collision_records_exact (w : List EntityRec) (p : EntityRec)
    (hnd : (ids w).Nodup) (hp : p ∈ w) :
    ((recordsOf (PhysicsSystem.run w) p.eid).map Collision.other).Nodup ∧
    ∀ j : ℕ, (j ∈ (recordsOf (PhysicsSystem.run w) p.eid).map Collision.other ↔
      ∃ q ∈ w, q.eid = j ∧ j ≠ p.eid ∧
        (worldBox p).check_collision (worldBox q) ≠ none) := by
  constructor
  · rw [recordsOf_run]
    exact contrib_nodup (collisionMap_pairwise hnd)
      (fun t ht => collisionMap_entry_ne hnd ht)
  · intro j
    rw [List.mem_map]
    exact mem_records_run_iff hnd hp

theorem collision_records_exact_witness :
    (ids testWorld).Nodup ∧ testE0 ∈ testWorld ∧
    (((recordsOf (PhysicsSystem.run testWorld) testE0.eid).map Collision.other).Nodup ∧
      ∀ j : ℕ,
        (j ∈ (recordsOf (PhysicsSystem.run testWorld) testE0.eid).map Collision.other ↔
          ∃ q ∈ testWorld, q.eid = j ∧ j ≠ testE0.eid ∧
            (worldBox testE0).check_collision (worldBox q) ≠ none)) :=
  ⟨by decide, by decide,
    collision_records_exact testWorld testE0 (by decide) (by decide)⟩

/-- C4: for a colliding pair iterated as `(entity1, entity2)`, the axis is
negated exactly when its dot product with `pos2 - pos1` is non-negative,
and both participants' records carry that identical signed axis value (the
record stored on entity2 equals the one stored on entity1, not a mirror). -/
theorem collision_axis_oriented_shared (w : List EntityRec) (p q : EntityRec) (axis : Vec2)
    (hnd : (ids w).Nodup) (hpq : (p, q) ∈ pairsOf w)
    (hcol : (worldBox p).check_collision (worldBox q) = some axis) :
    orientAxis axis p.transform q.transform =
      (if axis.dot (q.transform.position.sub p.transform.position) ≥ 0
        then scalarMulVec (-1) axis else axis) ∧
    (∃ c ∈ recordsOf (PhysicsSystem.run w) p.eid, c.other = q.eid ∧
      c.mtv = orientAxis axis p.transform q.transform) ∧
    (∃ c ∈ recordsOf (PhysicsSystem.run w) q.eid, c.other = p.eid ∧
      c.mtv = orientAxis axis p.transform q.transform) ∧
    (∀ c ∈ recordsOf (PhysicsSystem.run w) p.eid, c.other = q.eid →
      c.mtv = orientAxis axis p.transform q.transform) ∧
    (∀ c ∈ recordsOf (PhysicsSystem.run w) q.eid, c.other = p.eid →
      c.mtv = orientAxis axis p.transform q.transform) := by
  have hne := pairsOf_eid_ne hnd hpq
  obtain ⟨hpmem, hqmem⟩ := pairsOf_mem hpq
  have hentry : (p.eid, q.eid, orientAxis axis p.transform q.transform) ∈ collisionMap w :=
    mem_collisionMap.mpr ⟨p, q, axis, hpq, hcol, rfl⟩
  refine ⟨rfl, ?_, ?_, ?_, ?_⟩
  · rw [recordsOf_run]
    exact ⟨⟨q.eid, orientAxis axis p.transform q.transform⟩,
      mem_contrib.mpr ⟨_, hentry, Or.inl ⟨rfl, rfl⟩⟩, rfl, rfl⟩
  · rw [recordsOf_run]
    exact ⟨⟨p.eid, orientAxis axis p.transform q.transform⟩,
      mem_contrib.mpr ⟨_, hentry, Or.inr ⟨rfl, rfl⟩⟩, rfl, rfl⟩
  · intro c hc hco
    rw [recordsOf_run] at hc
    obtain ⟨t, ht, hcase⟩ := mem_contrib.mp hc
    obtain ⟨a, b, ax2, habmem, hab, rfl⟩ := mem_collisionMap.mp ht
    obtain ⟨hamem, hbmem⟩ := pairsOf_mem habmem
    rcases hcase with ⟨h1, rfl⟩ | ⟨h1, rfl⟩
    · have ha : a = p := eid_inj hnd hamem hpmem h1
      subst ha
      have hb : b = q := eid_inj hnd hbmem hqmem hco
      subst hb
      rw [hcol] at hab
      cases hab
      rfl
    · have hb : b = p := eid_inj hnd hbmem hpmem h1
      subst hb
      have ha : a = q := eid_inj hnd hamem hqmem hco
      subst ha
      obtain ⟨h1, _⟩ := pairsOf_unique hnd hpq habmem
        (Or.inl ⟨rfl, rfl⟩) (Or.inr ⟨rfl, rfl⟩)
      exact absurd (congrArg EntityRec.eid h1) hne
  · intro c hc hco
    rw [recordsOf_run] at hc
    obtain ⟨t, ht, hcase⟩ := mem_contrib.mp hc
    obtain ⟨a, b, ax2, habmem, hab, rfl⟩ := mem_collisionMap.mp ht
    obtain ⟨hamem, hbmem⟩ := pairsOf_mem habmem
    rcases hcase with ⟨h1, rfl⟩ | ⟨h1, rfl⟩
    · have ha : a = q := eid_inj hnd hamem hqmem h1
      subst ha
      have hb : b = p := eid_inj hnd hbmem hpmem hco
      subst hb
      obtain ⟨h1, _⟩ := pairsOf_unique hnd hpq habmem
        (Or.inl ⟨rfl, rfl⟩) (Or.inr ⟨rfl, rfl⟩)
      exact absurd (congrArg EntityRec.eid h1) hne
    · have hb : b = q := eid_inj hnd hbmem hqmem h1
      subst hb
      have ha : a = p := eid_inj hnd hamem hpmem hco
      subst ha
      rw [hcol] at hab
      cases hab
      rfl

theorem collision_axis_oriented_shared_witness :
    (ids testWorld).Nodup ∧ (testE0, testE1) ∈ pairsOf testWorld ∧
    (worldBox testE0).check_collision (worldBox testE1) = some (Vec2.new 1 0) ∧
    (orientAxis (Vec2.new 1 0) testE0.transform testE1.transform =
      (if (Vec2.new 1 0).dot (testE1.transform.position.sub testE0.transform.position) ≥ 0
        then scalarMulVec (-1) (Vec2.new 1 0) else Vec2.new 1 0) ∧
    (∃ c ∈ recordsOf (PhysicsSystem.run testWorld) testE0.eid, c.other = testE1.eid ∧
      c.mtv = orientAxis (Vec2.new 1 0) testE0.transform testE1.transform) ∧
    (∃ c ∈ recordsOf (PhysicsSystem.run testWorld) testE1.eid, c.other = testE0.eid ∧
      c.mtv = orientAxis (Vec2.new 1 0) testE0.transform testE1.transform) ∧
    (∀ c ∈ recordsOf (PhysicsSystem.run testWorld) testE0.eid, c.other = testE1.eid →
      c.mtv = orientAxis (Vec2.new 1 0) testE0.transform testE1.transform) ∧
    (∀ c ∈ recordsOf (PhysicsSystem.run testWorld) testE1.eid, c.other = testE0.eid →
      c.mtv = orientAxis (Vec2.new 1 0) testE0.transform testE1.transform)) :=
  ⟨by decide, by decide,
    by rw [check_collision_eq]
       norm_num [xOverlap, yOverlap, worldBox, AABB.adjust_position, testE0, testE1,
         testBBox, AABB.new, Vec2.new, min_def, max_def],
    collision_axis_oriented_shared testWorld testE0 testE1 (Vec2.new 1 0)
      (by decide) (by decide)
      (by rw [check_collision_eq]
          norm_num [xOverlap, yOverlap, worldBox, AABB.adjust_position, testE0, testE1,
            testBBox, AABB.new, Vec2.new, min_def, max_def])⟩

/-- C5: for every collision record processed by the ball-reaction system:
on a paddle record (`other` equal to either paddle entity) `velocity.x` is
negated and `velocity.y` only gains `sin θ` for a sampled `θ ∈ [-15°,15°]`
(it is never negated); on any non-paddle record `velocity.y` is negated
and `velocity.x` is untouched. -/
theorem ball_bounce_branches (ball : Ball) (other : ℕ) (v : Vec2R) (angle : ℝ)
    (h : -15 ≤ angle ∧ angle < 15) :
    ((other = ball.left_paddle ∨ other = ball.right_paddle) →
      (bounce_step ball other v angle).x = -v.x ∧
      ∃ θ, -15 ≤ θ ∧ θ ≤ 15 ∧
        (bounce_step ball other v angle).y = v.y + Real.sin (toRadians θ)) ∧
    ((other ≠ ball.left_paddle ∧ other ≠ ball.right_paddle) →
      (bounce_step ball other v angle).x = v.x ∧
      (bounce_step ball other v angle).y = -v.y) := by
  constructor
  · intro hother
    have hstep : bounce_step ball other v angle =
        ⟨v.x * (-1), v.y + Real.sin (toRadians angle)⟩ := by
      rcases hother with hl | hr
      · simp [bounce_step, hl]
      · by_cases hl : other = ball.left_paddle <;> simp [bounce_step, hl, hr]
    rw [hstep]
    exact ⟨by show v.x * (-1) = -v.x; ring, angle, h.1, h.2.le, rfl⟩
  · rintro ⟨h1, h2⟩
    have hstep : bounce_step ball other v angle = ⟨v.x, v.y * (-1)⟩ := by
      simp [bounce_step, h1, h2]
    rw [hstep]
    exact ⟨rfl, by show v.y * (-1) = -v.y; ring⟩

theorem ball_bounce_branches_witness :
    (-15 ≤ (0 : ℝ) ∧ (0 : ℝ) < 15) ∧
    ((((1 : ℕ) = (Ball.mk 1 2).left_paddle ∨ (1 : ℕ) = (Ball.mk 1 2).right_paddle) →
      (bounce_step (Ball.mk 1 2) 1 (Vec2R.mk 3 4) 0).x = -(Vec2R.mk 3 4).x ∧
      ∃ θ, -15 ≤ θ ∧ θ ≤ 15 ∧
        (bounce_step (Ball.mk 1 2) 1 (Vec2R.mk 3 4) 0).y =
          (Vec2R.mk 3 4).y + Real.sin (toRadians θ)) ∧
    (((1 : ℕ) ≠ (Ball.mk 1 2).left_paddle ∧ (1 : ℕ) ≠ (Ball.mk 1 2).right_paddle) →
      (bounce_step (Ball.mk 1 2) 1 (Vec2R.mk 3 4) 0).x = (Vec2R.mk 3 4).x ∧
      (bounce_step (Ball.mk 1 2) 1 (Vec2R.mk 3 4) 0).y = -(Vec2R.mk 3 4).y)) :=
  ⟨by norm_num, ball_bounce_branches (Ball.mk 1 2) 1 (Vec2R.mk 3 4) 0 (by norm_num)⟩

/-- C6: the score check runs on the already-integrated position: past
`x > 1.3` the "Player 2 has scored!" line is printed and a reset fires;
past `x < -1.3` it is "Player 1 has scored!"; a reset puts the ball at the
origin with velocity `0.5` times a unit vector at the sampled angle in
`[0°, 360°)`; otherwise position and velocity are exactly the integrated
ones. -/
theorem ball_score_reset (ball : Ball) (angles : ℕ → ℝ) (reset_angle dt : ℝ)
    (collided : List ℕ) (pos v : Vec2R)
    (ha : 0 ≤ reset_angle ∧ reset_angle < 360) :
    update_ball ball angles reset_angle dt collided pos v =
      score_check reset_angle (integrated_position ball angles dt collided pos v)
        (update_velocity ball angles collided 0 v) ∧
    ((integrated_position ball angles dt collided pos v).x > 1.3 →
      update_ball ball angles reset_angle dt collided pos v =
        (Vec2R.mk 0 0,
          scalarMulVecR 0.5 (Vec2R.mk (Real.cos (toRadians reset_angle))
            (Real.sin (toRadians reset_angle))),
          ["Player 2 has scored!"]) ∧
      ∃ θ, 0 ≤ θ ∧ θ < 360 ∧
        scalarMulVecR 0.5 (Vec2R.mk (Real.cos (toRadians reset_angle))
            (Real.sin (toRadians reset_angle))) =
          scalarMulVecR 0.5 (Vec2R.mk (Real.cos (toRadians θ)) (Real.sin (toRadians θ))) ∧
        Vec2R.length (Vec2R.mk (Real.cos (toRadians θ)) (Real.sin (toRadians θ))) = 1) ∧
    ((integrated_position ball angles dt collided pos v).x < -1.3 →
      update_ball ball angles reset_angle dt collided pos v =
        (Vec2R.mk 0 0,
          scalarMulVecR 0.5 (Vec2R.mk (Real.cos (toRadians reset_angle))
            (Real.sin (toRadians reset_angle))),
          ["Player 1 has scored!"]) ∧
      ∃ θ, 0 ≤ θ ∧ θ < 360 ∧
        scalarMulVecR 0.5 (Vec2R.mk (Real.cos (toRadians reset_angle))
            (Real.sin (toRadians reset_angle))) =
          scalarMulVecR 0.5 (Vec2R.mk (Real.cos (toRadians θ)) (Real.sin (toRadians θ))) ∧
        Vec2R.length (Vec2R.mk (Real.cos (toRadians θ)) (Real.sin (toRadians θ))) = 1) ∧
    (¬ (integrated_position ball angles dt collided pos v).x > 1.3 →
      ¬ (integrated_position ball angles dt collided pos v).x < -1.3 →
      update_ball ball angles reset_angle dt collided pos v =
        (integrated_position ball angles dt collided pos v,
          update_velocity ball angles collided 0 v, [])) := by
  have hlen : Vec2R.length (Vec2R.mk (Real.cos (toRadians reset_angle))
      (Real.sin (toRadians reset_angle))) = 1 := by
    unfold Vec2R.length
    rw [show Real.cos (toRadians reset_angle) * Real.cos (toRadians reset_angle) +
        Real.sin (toRadians reset_angle) * Real.sin (toRadians reset_angle) =
        Real.sin (toRadians reset_angle) ^ 2 + Real.cos (toRadians reset_angle) ^ 2 by ring,
      Real.sin_sq_add_cos_sq, Real.sqrt_one]
  refine ⟨rfl, ?_, ?_, ?_⟩
  · intro hgt
    unfold update_ball score_check
    rw [if_pos hgt]
    exact ⟨rfl, reset_angle, ha.1, ha.2, rfl, hlen⟩
  · intro hlt
    have hngt : ¬ (integrated_position ball angles dt collided pos v).x > 1.3 := by
      intro hgt
      linarith
    unfold update_ball score_check
    rw [if_neg hngt, if_pos hlt]
    exact ⟨rfl, reset_angle, ha.1, ha.2, rfl, hlen⟩
  · intro hngt hnlt
    unfold update_ball score_check
    rw [if_neg hngt, if_neg hnlt]

theorem ball_score_reset_witness :
    ((0 : ℝ) ≤ 90 ∧ (90 : ℝ) < 360) ∧
    (update_ball (Ball.mk 5 6) (fun _ => 0) 90 1 [] (Vec2R.mk 2 0) (Vec2R.mk 0 0) =
      score_check 90
        (integrated_position (Ball.mk 5 6) (fun _ => 0) 1 [] (Vec2R.mk 2 0) (Vec2R.mk 0 0))
        (update_velocity (Ball.mk 5 6) (fun _ => 0) [] 0 (Vec2R.mk 0 0)) ∧
    ((integrated_position (Ball.mk 5 6) (fun _ => 0) 1 [] (Vec2R.mk 2 0)
        (Vec2R.mk 0 0)).x > 1.3 →
      update_ball (Ball.mk 5 6) (fun _ => 0) 90 1 [] (Vec2R.mk 2 0) (Vec2R.mk 0 0) =
        (Vec2R.mk 0 0,
          scalarMulVecR 0.5 (Vec2R.mk (Real.cos (toRadians 90)) (Real.sin (toRadians 90))),
          ["Player 2 has scored!"]) ∧
      ∃ θ, 0 ≤ θ ∧ θ < 360 ∧
        scalarMulVecR 0.5 (Vec2R.mk (Real.cos (toRadians 90)) (Real.sin (toRadians 90))) =
          scalarMulVecR 0.5 (Vec2R.mk (Real.cos (toRadians θ)) (Real.sin (toRadians θ))) ∧
        Vec2R.length (Vec2R.mk (Real.cos (toRadians θ)) (Real.sin (toRadians θ))) = 1) ∧
    ((integrated_position (Ball.mk 5 6) (fun _ => 0) 1 [] (Vec2R.mk 2 0)
        (Vec2R.mk 0 0)).x < -1.3 →
      update_ball (Ball.mk 5 6) (fun _ => 0) 90 1 [] (Vec2R.mk 2 0) (Vec2R.mk 0 0) =
        (Vec2R.mk 0 0,
          scalarMulVecR 0.5 (Vec2R.mk (Real.cos (toRadians 90)) (Real.sin (toRadians 90))),
          ["Player 1 has scored!"]) ∧
      ∃ θ, 0 ≤ θ ∧ θ < 360 ∧
        scalarMulVecR 0.5 (Vec2R.mk (Real.cos (toRadians 90)) (Real.sin (toRadians 90))) =
          scalarMulVecR 0.5 (Vec2R.mk (Real.cos (toRadians θ)) (Real.sin (toRadians θ))) ∧
        Vec2R.length (Vec2R.mk (Real.cos (toRadians θ)) (Real.sin (toRadians θ))) = 1) ∧
    (¬ (integrated_position (Ball.mk 5 6) (fun _ => 0) 1 [] (Vec2R.mk 2 0)
        (Vec2R.mk 0 0)).x > 1.3 →
      ¬ (integrated_position (Ball.mk 5 6) (fun _ => 0) 1 [] (Vec2R.mk 2 0)
        (Vec2R.mk 0 0)).x < -1.3 →
      update_ball (Ball.mk 5 6) (fun _ => 0) 90 1 [] (Vec2R.mk 2 0) (Vec2R.mk 0 0) =
        (integrated_position (Ball.mk 5 6) (fun _ => 0) 1 [] (Vec2R.mk 2 0) (Vec2R.mk 0 0),
          update_velocity (Ball.mk 5 6) (fun _ => 0) [] 0 (Vec2R.mk 0 0), []))) :=
  ⟨by norm_num,
    ball_score_reset (Ball.mk 5 6) (fun _ => 0) 90 1 [] (Vec2R.mk 2 0) (Vec2R.mk 0 0)
      (by norm_num)⟩

/-- C7: with a fixed deltaTime the ball-reaction system integrates
`position += velocity * deltaTime`: from position `(0,0)`, velocity
`(0.5,0)`, deltaTime `0.01` and no collision records, one tick yields
position `(0.005, 0)` (velocity untouched, no score message). -/
theorem ball_integration_tick :
    update_ball (Ball.mk 100 101) (fun _ => 0) 0 (0.01 : ℝ) [] (Vec2R.mk 0 0)
      (Vec2R.mk 0.5 0) =
      (Vec2R.mk 0.005 0, Vec2R.mk 0.5 0, ([] : List String)) := by
  simp only [update_ball, integrated_position, update_velocity, score_check]
  norm_num

/-- C8: `from_vertices` fails (fatally, via the length assertion) exactly
on vertex lists of fewer than two points; on any list of at least two it
returns a box bounding every vertex from below and above on both axes. -/
theorem from_vertices_bounds (vs : List Vertex) :
    (vs.length < 2 → AABB.from_vertices vs = none) ∧
    (2 ≤ vs.length → ∃ box, AABB.from_vertices vs = some box ∧
      ∀ v ∈ vs, box.bot_left.x ≤ v.position.x ∧ box.bot_left.y ≤ v.position.y ∧
        v.position.x ≤ box.top_right.x ∧ v.position.y ≤ box.top_right.y) := by
  match vs with
  | [] => exact ⟨fun _ => rfl, fun h => by simp at h⟩
  | [a] => exact ⟨fun _ => rfl, fun h => by simp at h⟩
  | a :: b :: rest =>
    constructor
    · intro h
      simp only [List.length_cons] at h
      omega
    · intro _
      rw [show AABB.from_vertices (a :: b :: rest) =
          some ⟨((a :: b :: rest).foldl foldStep (a.position, a.position)).2,
            ((a :: b :: rest).foldl foldStep (a.position, a.position)).1⟩ from rfl]
      refine ⟨_, rfl, ?_⟩
      intro v hv
      obtain ⟨_, hall⟩ := foldStep_bounds (a :: b :: rest) (a.position, a.position)
      exact hall v hv

theorem from_vertices_bounds_witness :
    2 ≤ ([⟨Vec2.new 0 0⟩, ⟨Vec2.new 1 2⟩] : List Vertex).length ∧
    ∃ box, AABB.from_vertices [⟨Vec2.new 0 0⟩, ⟨Vec2.new 1 2⟩] = some box ∧
      ∀ v ∈ ([⟨Vec2.new 0 0⟩, ⟨Vec2.new 1 2⟩] : List Vertex),
        box.bot_left.x ≤ v.position.x ∧ box.bot_left.y ≤ v.position.y ∧
        v.position.x ≤ box.top_right.x ∧ v.position.y ≤ box.top_right.y :=
  ⟨by decide, (from_vertices_bounds _).2 (by decide)⟩

/-- C9, counterexample: the claim that `PhysicsSystem::run` mutates some
entity's `Transform.position` or `PhysicsBody.velocity` on some frame
state is false — the detector's run leaves every id, position and
velocity unchanged for every world. -/
theorem detector_mutates_state_false :
    ¬ ∃ w : List EntityRec, (PhysicsSystem.run w).map stateProj ≠ w.map stateProj :=
  fun ⟨w, hw⟩ => hw (stateProj_run w)

/-- C9, amended: the Collision Detector's per-frame run writes only the
per-entity collision-record lists; it never changes any entity's
`Transform.position` or `PhysicsBody.velocity` (nor its id). -/
theorem detector_preserves_position_velocity (w : List EntityRec) :
    (PhysicsSystem.run w).map stateProj = w.map stateProj :=
  stateProj_run w

end Pong
